import Mathlib

/-!
Verification development for the ABSA fine-tuning program (`run_asc.py`).

The file shallowly embeds the algorithmic core of the program:
the learning-rate schedule `warmup_linear`, the multi-layer pooling head
`GRoIE` and its forward pass, the wrapping classification model
`BertForABSA`, the step bookkeeping of the training loop, the size-weighted
validation loss, the order-preserving evaluation loop, the optimizer
parameter-group construction, and the checkpoint-path handling of the
standalone evaluation entry point.

Tensors of hidden states are kept abstract (an arbitrary type `T`); logits
are `List (List ℚ)` matrices (one row per example, one column per class);
real arithmetic is modelled over `ℚ`.
-/

/-- Embedding of `warmup_linear(x, warmup)` from `run_asc.py`:
`if x < warmup: return x/warmup` else `return 1.0 - x`. -/
def warmup_linear (x : ℚ) (warmup : ℚ) : ℚ :=
  if x < warmup then x / warmup else 1 - x

/-- A loss result of the head: either the legacy empty tensor produced by
`torch.Tensor(0)` (the size-0 uninitialised tensor used as a placeholder when
no labels are given), or a scalar loss value. -/
inductive LossVal where
  | emptyTensor : LossVal
  | scalar (q : ℚ) : LossVal
deriving DecidableEq, Repr

/-- Embedding of `torch.nn.CrossEntropyLoss(ignore_index=-1)` with the default
mean reduction, applied to a `(B, C)` logits matrix and `B` integer labels.
`ell row y` is the per-example cross-entropy term (an abstract function of the
logits row and the label, since it involves transcendental log-sum-exp);
examples whose label equals `-1` carry zero weight, and the remaining terms
are averaged over the non-ignored examples.  When every label is ignored the
normalising weight is zero and the result is `0` (rational division by zero;
this matches the guarded division of the legacy torch criterion the program
was written against). -/
def ceIgnore (ell : List ℚ → ℤ → ℚ) (logits : List (List ℚ)) (labels : List ℤ) : ℚ :=
  let contribs := ((logits.zip labels).filter (fun p => !(p.2 == -1))).map
    (fun p => ell p.1 p.2)
  contribs.sum / contribs.length

/-- Claim C1 as written is refuted at `warmup_fraction = 1/2`,
`progress = 1/2`: the function takes the decay branch there, whose value is
`1 - 1/2 = 1/2`, not `1`; the two branches disagree at `progress =
warmup_fraction`, so the multiplier is not continuous there. -/
theorem warmup_linear_discontinuity_cex :
    warmup_linear (1/2 : ℚ) (1/2) = 1/2 ∧ warmup_linear (1/2 : ℚ) (1/2) ≠ 1 := by
  constructor
  · simp [warmup_linear]
    norm_num
  · simp [warmup_linear]

/-- Claim C1 (amended): for every `warmup_fraction ∈ (0,1)` and every
`progress ∈ [warmup_fraction, 1]`, the schedule returns `1 - progress`, is
strictly decreasing there, and reaches `0` at `progress = 1`; however at
`progress = warmup_fraction` the function takes the decay-branch value
`1 - warmup_fraction`, while the warmup branch would give `1` — the
multiplier is discontinuous at the boundary, with a downward jump of size
`warmup_fraction`. -/
theorem warmup_linear_decay (w x : ℚ) (h0 : 0 < w) (h1 : w < 1) (hwx : w ≤ x) :
    warmup_linear x w = 1 - x ∧
    warmup_linear 1 w = 0 ∧
    warmup_linear w w = 1 - w ∧
    (w / w = 1) ∧
    (∀ y z : ℚ, w ≤ y → y < z → warmup_linear z w < warmup_linear y w) := by
  have hbranch : ∀ t : ℚ, w ≤ t → warmup_linear t w = 1 - t := by
    intro t ht
    have : ¬ t < w := not_lt.mpr ht
    simp [warmup_linear, this]
  refine ⟨hbranch x hwx, ?_, hbranch w le_rfl, ?_, ?_⟩
  · rw [hbranch 1 (le_of_lt h1)]; ring
  · exact div_self (ne_of_gt h0)
  · intro y z hy hyz
    rw [hbranch y hy, hbranch z (le_trans hy (le_of_lt hyz))]
    linarith

/-- Witness for `warmup_linear_decay` at `warmup_fraction = 1/2`,
`progress = 3/4`. -/
theorem warmup_linear_decay_witness :
    (0 : ℚ) < 1/2 ∧ (1/2 : ℚ) < 1 ∧ (1/2 : ℚ) ≤ 3/4 ∧
    (warmup_linear (3/4 : ℚ) (1/2) = 1 - 3/4 ∧
     warmup_linear 1 (1/2 : ℚ) = 0 ∧
     warmup_linear (1/2 : ℚ) (1/2) = 1 - 1/2 ∧
     ((1/2 : ℚ) / (1/2) = 1) ∧
     (∀ y z : ℚ, 1/2 ≤ y → y < z →
        warmup_linear z (1/2) < warmup_linear y (1/2))) :=
  ⟨by norm_num, by norm_num, by norm_num,
   warmup_linear_decay (1/2) (3/4) (by norm_num) (by norm_num) (by norm_num)⟩

/-- Elementwise sum of two logits matrices (broadcast-free addition of two
equally shaped `(B, C)` tensors). -/
def matAdd (A B : List (List ℚ)) : List (List ℚ) :=
  List.zipWith (List.zipWith (· + ·)) A B

/-- Embedding of `torch.sum(torch.stack(Ls), dim=0)` for a nonempty list of
equally shaped `(B, C)` matrices: elementwise sum across the list. -/
def matSum : List (List (List ℚ)) → List (List ℚ)
  | [] => []
  | A :: As => As.foldl matAdd A

/-- Elementwise division of a `(B, C)` matrix by a scalar count. -/
def matDiv (A : List (List ℚ)) (c : ℕ) : List (List ℚ) :=
  A.map (fun r => r.map (fun q => q / (c : ℚ)))

/-- Embedding of the `GRoIE` module of `run_asc.py`.  Hidden-state tensors are
abstract values of a type `T`; the `count` refinement sub-layers
(`pre_layers`, one `BertLayer` per branch) and the shared `pooler` are
abstract tensor transformers, while the shared linear `classifier` produces a
concrete `(B, num_labels)` logits matrix.  `ell i` is the per-example
cross-entropy term of the branch-`i` loss module `loss_fct[i]`
(`CrossEntropyLoss(ignore_index=-1)`), lifted to batches by `ceIgnore`. -/
structure GRoIEModel (T : Type) where
  count : ℕ
  num_labels : ℕ
  pre_layers : ℕ → T → T → T
  pooler : T → T
  classifier : T → List (List ℚ)
  ell : ℕ → List ℚ → ℤ → ℚ

/-- One branch of `GRoIE.forward`: select the hidden state `layers[-i-1]`,
refine it with branch `i`'s own sub-layer, pool with the shared pooler and
classify with the shared classifier. -/
def GRoIEModel.branch {T : Type} [Inhabited T] (m : GRoIEModel T)
    (layers : List T) (mask : T) (i : ℕ) : List (List ℚ) :=
  m.classifier (m.pooler (m.pre_layers i (layers.getD (layers.length - (i + 1)) default) mask))

/-- The accumulation loop of `GRoIE.forward` after `k` iterations: the
`losses` list (appended to only when labels are given) and the `logitses`
list. -/
def GRoIEModel.loop {T : Type} [Inhabited T] (m : GRoIEModel T)
    (layers : List T) (mask : T) (labels : Option (List ℤ)) :
    ℕ → List ℚ × List (List (List ℚ))
  | 0 => ([], [])
  | k + 1 =>
    let acc := m.loop layers mask labels k
    let logits := m.branch layers mask k
    match labels with
    | some lab => (acc.1 ++ [ceIgnore (m.ell k) logits lab], acc.2 ++ [logits])
    | none => (acc.1, acc.2 ++ [logits])

/-- Embedding of `GRoIE.forward(layers, attention_mask, labels)`: run the
branch loop, then return `torch.sum(torch.stack(losses), dim=0)` when labels
are given (the legacy empty tensor `torch.Tensor(0)` otherwise) together with
`torch.sum(torch.stack(logitses), dim=0) / count`. -/
def GRoIEModel.forward {T : Type} [Inhabited T] (m : GRoIEModel T)
    (layers : List T) (mask : T) (labels : Option (List ℤ)) :
    LossVal × List (List ℚ) :=
  let acc := m.loop layers mask labels m.count
  let total_loss : LossVal :=
    match labels with
    | some _ => LossVal.scalar acc.1.sum
    | none => LossVal.emptyTensor
  (total_loss, matDiv (matSum acc.2) m.count)

lemma GRoIEModel.loop_fst {T : Type} [Inhabited T] (m : GRoIEModel T)
    (layers : List T) (mask : T) (lab : List ℤ) (k : ℕ) :
    (m.loop layers mask (some lab) k).1 =
      (List.range k).map (fun i => ceIgnore (m.ell i) (m.branch layers mask i) lab) := by
  induction k with
  | zero => rfl
  | succ n ih =>
    rw [List.range_succ, List.map_append]
    simpa [GRoIEModel.loop] using congrArg (· ++ [ceIgnore (m.ell n) (m.branch layers mask n) lab]) ih

lemma GRoIEModel.loop_snd {T : Type} [Inhabited T] (m : GRoIEModel T)
    (layers : List T) (mask : T) (labels : Option (List ℤ)) (k : ℕ) :
    (m.loop layers mask labels k).2 = (List.range k).map (m.branch layers mask) := by
  induction k with
  | zero => cases labels <;> rfl
  | succ n ih =>
    rw [List.range_succ, List.map_append]
    cases labels <;> simpa [GRoIEModel.loop] using congrArg (· ++ [m.branch layers mask n]) ih

/-- Claim C2: with labels given, the total loss returned by the head is the
scalar exact sum (not the mean) of the `count` per-branch cross-entropy
losses, where branch `i` classifies the pooled refinement, by branch `i`'s
own sub-layer, of the hidden state at depth `-i-1` from the end of the layer
stack, using the shared pooler and classifier. -/
theorem groie_total_loss_eq_sum {T : Type} [Inhabited T] (m : GRoIEModel T)
    (layers : List T) (mask : T) (lab : List ℤ) :
    (m.forward layers mask (some lab)).1 =
      LossVal.scalar (((List.range m.count).map (fun i =>
        ceIgnore (m.ell i)
          (m.classifier (m.pooler (m.pre_layers i
            (layers.getD (layers.length - (i + 1)) default) mask))) lab)).sum) := by
  simp only [GRoIEModel.forward, GRoIEModel.loop_fst]
  rfl

/-- Entry `(b, j)` of a logits matrix (out-of-range entries default to `0`). -/
def matEntry (A : List (List ℚ)) (b j : ℕ) : ℚ :=
  (A.getD b []).getD j 0

/-- The matrix `A` has `rows` rows, each of length `cols`. -/
def matShape (A : List (List ℚ)) (rows cols : ℕ) : Prop :=
  A.length = rows ∧ ∀ b, b < rows → (A.getD b []).length = cols

instance (A : List (List ℚ)) (rows cols : ℕ) : Decidable (matShape A rows cols) := by
  unfold matShape
  infer_instance

lemma matAdd_getD (A B : List (List ℚ)) (rows : ℕ) (hA : A.length = rows)
    (hB : B.length = rows) (b : ℕ) (hb : b < rows) :
    (matAdd A B).getD b [] = List.zipWith (· + ·) (A.getD b []) (B.getD b []) := by
  have hlen : (matAdd A B).length = rows := by
    simp [matAdd, List.length_zipWith, hA, hB]
  rw [List.getD_eq_getElem _ _ (hlen ▸ hb), List.getD_eq_getElem _ _ (hA ▸ hb),
    List.getD_eq_getElem _ _ (hB ▸ hb)]
  simp [matAdd, List.getElem_zipWith]

lemma matAdd_shape (A B : List (List ℚ)) (rows cols : ℕ) (hA : matShape A rows cols)
    (hB : matShape B rows cols) : matShape (matAdd A B) rows cols := by
  obtain ⟨hA1, hA2⟩ := hA
  obtain ⟨hB1, hB2⟩ := hB
  refine ⟨by simp [matAdd, List.length_zipWith, hA1, hB1], ?_⟩
  intro b hb
  rw [matAdd_getD A B rows hA1 hB1 b hb, List.length_zipWith, hA2 b hb, hB2 b hb]
  exact min_self cols

lemma matAdd_entry (A B : List (List ℚ)) (rows cols : ℕ) (hA : matShape A rows cols)
    (hB : matShape B rows cols) (b j : ℕ) (hb : b < rows) (hj : j < cols) :
    matEntry (matAdd A B) b j = matEntry A b j + matEntry B b j := by
  obtain ⟨hA1, hA2⟩ := hA
  obtain ⟨hB1, hB2⟩ := hB
  unfold matEntry
  rw [matAdd_getD A B rows hA1 hB1 b hb]
  have hAr : j < (A.getD b []).length := by rw [hA2 b hb]; exact hj
  have hBr : j < (B.getD b []).length := by rw [hB2 b hb]; exact hj
  have hZr : j < (List.zipWith (· + ·) (A.getD b []) (B.getD b [])).length := by
    rw [List.length_zipWith]; omega
  rw [List.getD_eq_getElem _ _ hZr, List.getD_eq_getElem _ _ hAr, List.getD_eq_getElem _ _ hBr]
  simp [List.getElem_zipWith]

lemma foldl_matAdd_shape (Ls : List (List (List ℚ))) (rows cols : ℕ) :
    ∀ A, matShape A rows cols → (∀ M ∈ Ls, matShape M rows cols) →
      matShape (Ls.foldl matAdd A) rows cols := by
  induction Ls with
  | nil => intro A hA _; exact hA
  | cons M Ms ih =>
    intro A hA hLs
    simp only [List.foldl_cons]
    exact ih (matAdd A M) (matAdd_shape A M rows cols hA (hLs M (by simp)))
      (fun N hN => hLs N (by simp [hN]))

lemma foldl_matAdd_entry (Ls : List (List (List ℚ))) (rows cols b j : ℕ)
    (hb : b < rows) (hj : j < cols) :
    ∀ A, matShape A rows cols → (∀ M ∈ Ls, matShape M rows cols) →
      matEntry (Ls.foldl matAdd A) b j =
        matEntry A b j + (Ls.map (fun M => matEntry M b j)).sum := by
  induction Ls with
  | nil => intro A _ _; simp
  | cons M Ms ih =>
    intro A hA hLs
    simp only [List.foldl_cons, List.map_cons, List.sum_cons]
    rw [ih (matAdd A M) (matAdd_shape A M rows cols hA (hLs M (by simp)))
      (fun N hN => hLs N (by simp [hN]))]
    rw [matAdd_entry A M rows cols hA (hLs M (by simp)) b j hb hj]
    ring

lemma matSum_shape (M : List (List ℚ)) (Ms : List (List (List ℚ))) (rows cols : ℕ)
    (h : ∀ N ∈ M :: Ms, matShape N rows cols) :
    matShape (matSum (M :: Ms)) rows cols :=
  foldl_matAdd_shape Ms rows cols M (h M (by simp)) (fun N hN => h N (by simp [hN]))

lemma matSum_entry (M : List (List ℚ)) (Ms : List (List (List ℚ))) (rows cols b j : ℕ)
    (hb : b < rows) (hj : j < cols) (h : ∀ N ∈ M :: Ms, matShape N rows cols) :
    matEntry (matSum (M :: Ms)) b j = ((M :: Ms).map (fun N => matEntry N b j)).sum := by
  simp only [matSum, List.map_cons, List.sum_cons]
  exact foldl_matAdd_entry Ms rows cols b j hb hj M (h M (by simp))
    (fun N hN => h N (by simp [hN]))

lemma matDiv_getD (A : List (List ℚ)) (c : ℕ) (b : ℕ) (hb : b < A.length) :
    (matDiv A c).getD b [] = (A.getD b []).map (fun q => q / (c : ℚ)) := by
  have hbD : b < (matDiv A c).length := by simpa [matDiv] using hb
  rw [List.getD_eq_getElem _ _ hbD, List.getD_eq_getElem _ _ hb]
  simp [matDiv]

lemma matDiv_shape (A : List (List ℚ)) (c rows cols : ℕ) (hA : matShape A rows cols) :
    matShape (matDiv A c) rows cols := by
  obtain ⟨hA1, hA2⟩ := hA
  refine ⟨by simp [matDiv, hA1], ?_⟩
  intro b hb
  rw [matDiv_getD A c b (hA1 ▸ hb), List.length_map]
  exact hA2 b hb

lemma matDiv_entry (A : List (List ℚ)) (c rows cols b j : ℕ) (hA : matShape A rows cols)
    (hb : b < rows) (hj : j < cols) :
    matEntry (matDiv A c) b j = matEntry A b j / (c : ℚ) := by
  obtain ⟨hA1, hA2⟩ := hA
  unfold matEntry
  have hbA : b < A.length := hA1 ▸ hb
  have hjr : j < (A.getD b []).length := by rw [hA2 b hb]; exact hj
  have hjm : j < ((A.getD b []).map (fun q => q / (c : ℚ))).length := by
    rw [List.length_map]; exact hjr
  rw [matDiv_getD A c b hbA, List.getD_eq_getElem _ _ hjm, List.getD_eq_getElem _ _ hjr]
  simp

lemma ceIgnore_all_ignored (e : List ℚ → ℤ → ℚ) (logits : List (List ℚ)) (B : ℕ) :
    ceIgnore e logits (List.replicate B (-1 : ℤ)) = 0 := by
  unfold ceIgnore
  have hfil : (logits.zip (List.replicate B (-1 : ℤ))).filter (fun p => !(p.2 == -1)) = [] := by
    apply List.filter_eq_nil_iff.mpr
    intro p hp
    have h2 : p.2 ∈ List.replicate B (-1 : ℤ) := by
      rcases p with ⟨a, b⟩
      exact (List.of_mem_zip hp).2
    rw [List.eq_of_mem_replicate h2]
    simp
  rw [hfil]
  simp

/-- Claim C7: with an all `-1` label batch, every per-branch cross-entropy
loss is `0` and the head's total loss is the scalar `0`; moreover an example
whose label id is `-1` never contributes to a branch loss: appending such an
example to a batch leaves the branch loss unchanged. -/
theorem groie_ignored_labels_no_loss {T : Type} [Inhabited T] (m : GRoIEModel T)
    (layers : List T) (mask : T) (B : ℕ) (e : List ℚ → ℤ → ℚ)
    (logits : List (List ℚ)) (labels : List ℤ) (row : List ℚ)
    (hlen : logits.length = labels.length) :
    (∀ i, ceIgnore (m.ell i) (m.branch layers mask i) (List.replicate B (-1 : ℤ)) = 0) ∧
    (m.forward layers mask (some (List.replicate B (-1 : ℤ)))).1 = LossVal.scalar 0 ∧
    ceIgnore e (logits ++ [row]) (labels ++ [(-1 : ℤ)]) = ceIgnore e logits labels := by
  refine ⟨fun i => ceIgnore_all_ignored _ _ _, ?_, ?_⟩
  · rw [groie_total_loss_eq_sum]
    congr 1
    apply List.sum_eq_zero
    intro x hx
    rcases List.mem_map.mp hx with ⟨i, _, hix⟩
    rw [← hix]
    exact ceIgnore_all_ignored _ _ _
  · unfold ceIgnore
    rw [List.zip_append hlen, List.filter_append]
    simp

/-- Witness for `groie_ignored_labels_no_loss` on a concrete head, layer
stack, logits and labels. -/
theorem groie_ignored_labels_no_loss_witness :
    ([[ (1 : ℚ), 2, 3 ]] : List (List ℚ)).length = ([ (0 : ℤ) ] : List ℤ).length ∧
    ((∀ i, ceIgnore ((⟨4, 3, fun _ _ _ => (), id, fun _ => [[1, 2, 3]], fun _ r y => r.sum + y⟩ :
        GRoIEModel Unit).ell i)
        ((⟨4, 3, fun _ _ _ => (), id, fun _ => [[1, 2, 3]], fun _ r y => r.sum + y⟩ :
        GRoIEModel Unit).branch [(), (), (), ()] () i) (List.replicate 2 (-1 : ℤ)) = 0) ∧
     ((⟨4, 3, fun _ _ _ => (), id, fun _ => [[1, 2, 3]], fun _ r y => r.sum + y⟩ :
        GRoIEModel Unit).forward [(), (), (), ()] () (some (List.replicate 2 (-1 : ℤ)))).1 =
        LossVal.scalar 0 ∧
     ceIgnore (fun r y => r.sum + y) ([[ (1 : ℚ), 2, 3 ]] ++ [[ (4 : ℚ), 5, 6 ]])
        ([ (0 : ℤ) ] ++ [(-1 : ℤ)]) = ceIgnore (fun r y => r.sum + y) [[ (1 : ℚ), 2, 3 ]] [ (0 : ℤ) ]) :=
  ⟨rfl, groie_ignored_labels_no_loss _ [(), (), (), ()] () 2 _ _ _ [(4 : ℚ), 5, 6] rfl⟩

/-- Embedding of `BertForABSA`: the encoder `bert` is an abstract map from an
input batch to the full stack of encoded layers plus the refined attention
mask (the call with `output_all_encoded_layers=True`), and `groie` is the
head, constructed with branch count fixed at `4` by `__init__`. -/
structure BertForABSAModel (I T : Type) where
  bert : I → List T × T
  groie : GRoIEModel T
  count_eq : groie.count = 4

/-- Embedding of `BertForABSA.forward`: encode, delegate to the head, then
return only the loss when labels were given and only the aggregated logits
otherwise. -/
def BertForABSAModel.forward {I T : Type} [Inhabited T] (m : BertForABSAModel I T)
    (inputs : I) (labels : Option (List ℤ)) : LossVal ⊕ List (List ℚ) :=
  let enc := m.bert inputs
  let res := m.groie.forward enc.1 enc.2 labels
  match labels with
  | some _ => Sum.inl res.1
  | none => Sum.inr res.2

/-- Claim C4: the classification model returns only a scalar loss when labels
are supplied, and only the aggregated logits otherwise; for a batch of `B`
examples whose four branch logits are `(B, 3)` matrices, the returned logits
form a `(B, 3)` matrix whose every entry is the arithmetic mean of the four
corresponding per-branch entries.  In particular one unlabeled example
(`B = 1`) yields a single logits row of length `3`, not a loss. -/
theorem bert_forward_keyed_on_labels {I T : Type} [Inhabited T]
    (m : BertForABSAModel I T) (inputs : I) (B : ℕ)
    (hshape : ∀ i, i < 4 →
      matShape (m.groie.branch (m.bert inputs).1 (m.bert inputs).2 i) B 3) :
    (∀ lab : List ℤ, ∃ q : ℚ, m.forward inputs (some lab) = Sum.inl (LossVal.scalar q)) ∧
    (∃ M, m.forward inputs none = Sum.inr M ∧ matShape M B 3 ∧
      ∀ b j, b < B → j < 3 →
        matEntry M b j =
          (((List.range 4).map (fun i =>
            matEntry (m.groie.branch (m.bert inputs).1 (m.bert inputs).2 i) b j)).sum) / 4) := by
  have hmem : ∀ N ∈ (List.range 4).map
      (m.groie.branch (m.bert inputs).1 (m.bert inputs).2), matShape N B 3 := by
    intro N hN
    rcases List.mem_map.mp hN with ⟨i, hi, hiN⟩
    rw [← hiN]
    exact hshape i (by simpa using hi)
  rw [show List.range 4 = 0 :: [1, 2, 3] from rfl, List.map_cons] at hmem
  constructor
  · intro lab
    exact ⟨((m.groie.loop (m.bert inputs).1 (m.bert inputs).2 (some lab) m.groie.count).1).sum,
      rfl⟩
  · refine ⟨(m.groie.forward (m.bert inputs).1 (m.bert inputs).2 none).2, rfl, ?_, ?_⟩
    · simp only [GRoIEModel.forward, GRoIEModel.loop_snd, m.count_eq]
      rw [show List.range 4 = 0 :: [1, 2, 3] from rfl, List.map_cons]
      exact matDiv_shape _ _ B 3 (matSum_shape _ _ B 3 hmem)
    · intro b j hb hj
      simp only [GRoIEModel.forward, GRoIEModel.loop_snd, m.count_eq]
      rw [show ((List.range 4).map (m.groie.branch (m.bert inputs).1 (m.bert inputs).2)) =
          m.groie.branch (m.bert inputs).1 (m.bert inputs).2 0 ::
            [1, 2, 3].map (m.groie.branch (m.bert inputs).1 (m.bert inputs).2) from rfl]
      rw [matDiv_entry _ _ B 3 b j (matSum_shape _ _ B 3 hmem) hb hj,
        matSum_entry _ _ B 3 b j hb hj hmem]
      rw [show (m.groie.branch (m.bert inputs).1 (m.bert inputs).2 0 ::
            [1, 2, 3].map (m.groie.branch (m.bert inputs).1 (m.bert inputs).2)) =
          (List.range 4).map (m.groie.branch (m.bert inputs).1 (m.bert inputs).2) from rfl,
        List.map_map]
      rfl

/-- Witness model for the classification head claims: a four-layer stack of
trivial hidden states with a classifier that always emits the single logits
row `[1, 2, 3]`. -/
def demoGroie : GRoIEModel Unit where
  count := 4
  num_labels := 3
  pre_layers := fun _ _ _ => ()
  pooler := fun _ => ()
  classifier := fun _ => [[1, 2, 3]]
  ell := fun _ r y => r.sum + y

/-- Witness classification model wrapping `demoGroie`. -/
def demoBert : BertForABSAModel Unit Unit where
  bert := fun _ => ([(), (), (), ()], ())
  groie := demoGroie
  count_eq := rfl

/-- Witness for `bert_forward_keyed_on_labels` on `demoBert` with a batch of
one example. -/
theorem bert_forward_keyed_on_labels_witness :
    (∀ i, i < 4 →
      matShape (demoBert.groie.branch (demoBert.bert ()).1 (demoBert.bert ()).2 i) 1 3) ∧
    ((∀ lab : List ℤ, ∃ q : ℚ,
        demoBert.forward () (some lab) = Sum.inl (LossVal.scalar q)) ∧
     (∃ M, demoBert.forward () none = Sum.inr M ∧ matShape M 1 3 ∧
       ∀ b j, b < 1 → j < 3 →
         matEntry M b j =
           (((List.range 4).map (fun i =>
             matEntry (demoBert.groie.branch (demoBert.bert ()).1 (demoBert.bert ()).2 i) b j)).sum) / 4)) :=
  ⟨by decide, bert_forward_keyed_on_labels demoBert () 1 (by decide)⟩

/-- Claim C5 as written is refuted on a concrete head: with labels absent the
first component returned by the head is the empty tensor produced by
`torch.Tensor(0)` — a size-0 tensor holding no value — which is not a
zero-valued scalar loss (nor a scalar of any value). -/
theorem groie_placeholder_cex :
    (demoGroie.forward [(), (), (), ()] () none).1 = LossVal.emptyTensor ∧
    (∀ q : ℚ, LossVal.emptyTensor ≠ LossVal.scalar q) :=
  ⟨rfl, fun _ h => LossVal.noConfusion h⟩

/-- Claim C5 (amended): for every call of the head with labels absent, the
first component of the returned pair is the empty-tensor placeholder (the
size-0 tensor `torch.Tensor(0)`, which carries no scalar value, zero or
otherwise), and the aggregated logits are the second component. -/
theorem groie_placeholder_empty {T : Type} [Inhabited T] (m : GRoIEModel T)
    (layers : List T) (mask : T) :
    (m.forward layers mask none).1 = LossVal.emptyTensor ∧
    (m.forward layers mask none).2 =
      matDiv (matSum ((List.range m.count).map (m.branch layers mask))) m.count := by
  refine ⟨rfl, ?_⟩
  simp only [GRoIEModel.forward, GRoIEModel.loop_snd]

/-- The step budget computed by `train`:
`num_train_steps = int(len(train_examples) / train_batch_size) * num_train_epochs`
(floor division). -/
def num_train_steps (numExamples batchSize numEpochs : ℕ) : ℕ :=
  (numExamples / batchSize) * numEpochs

/-- Number of batches the training `DataLoader` yields per epoch: with the
default `drop_last=False`, a final partial batch is included, so the count is
the ceiling of `numExamples / batchSize`. -/
def batchesPerEpoch (numExamples batchSize : ℕ) : ℕ :=
  (numExamples + batchSize - 1) / batchSize

/-- Total optimizer steps actually taken by the training loop: the nested
`for epoch ... for step, batch in enumerate(train_dataloader)` loop takes one
`optimizer.step()` per batch of every epoch, with no stopping condition on
`global_step`. -/
def actualOptimizerSteps (numExamples batchSize numEpochs : ℕ) : ℕ :=
  numEpochs * batchesPerEpoch numExamples batchSize

/-- The learning rate applied to every parameter group at a given
`global_step`:
`lr_this_step = args.learning_rate * warmup_linear(global_step/t_total, args.warmup_proportion)`. -/
def lr_this_step (baseRate warmupProportion : ℚ) (globalStep tTotal : ℕ) : ℚ :=
  baseRate * warmup_linear ((globalStep : ℚ) / (tTotal : ℚ)) warmupProportion

/-- Claim C3 is violated by the code: with 3 training examples, batch size 2
and 2 epochs, `t_total = int(3/2)*2 = 2` but the loop takes
`2 * ceil(3/2) = 4` optimizer steps; at `global_step = 3` the progress
`3/2` exceeds `1` and the applied learning rate is
`base * (1 - 3/2) = -base/2 < 0` (here with base rate `1` and warmup
proportion `1/10`).  The loop does not stop at `total_steps`, the progress
fraction leaves `[0, 1]`, and a negative learning rate is applied. -/
theorem train_steps_exceed_budget :
    num_train_steps 3 2 2 = 2 ∧
    actualOptimizerSteps 3 2 2 = 4 ∧
    num_train_steps 3 2 2 < actualOptimizerSteps 3 2 2 ∧
    (1 : ℚ) < (3 : ℚ) / (num_train_steps 3 2 2 : ℚ) ∧
    lr_this_step 1 (1/10) 3 (num_train_steps 3 2 2) < 0 := by
  refine ⟨rfl, rfl, by norm_num [num_train_steps, actualOptimizerSteps, batchesPerEpoch], ?_, ?_⟩
  · norm_num [num_train_steps]
  · norm_num [lr_this_step, num_train_steps, warmup_linear]

/-- The validation bookkeeping loop of `train`: starting from the empty
`losses` list and `valid_size = 0`, each batch `(batchSize, meanLoss)`
appends `meanLoss * batchSize` to `losses` and adds `batchSize` to
`valid_size`. -/
def validLoop (batches : List (ℕ × ℚ)) : List ℚ × ℕ :=
  batches.foldl (fun acc p => (acc.1 ++ [p.2 * (p.1 : ℚ)], acc.2 + p.1)) ([], 0)

/-- The recorded validation loss: `valid_loss = sum(losses) / valid_size`. -/
def valid_loss (batches : List (ℕ × ℚ)) : ℚ :=
  (validLoop batches).1.sum / ((validLoop batches).2 : ℚ)

lemma validLoop_spec (batches : List (ℕ × ℚ)) :
    (validLoop batches).1.sum = (batches.map (fun p => p.2 * (p.1 : ℚ))).sum ∧
    (validLoop batches).2 = (batches.map (fun p => p.1)).sum := by
  suffices h : ∀ acc : List ℚ × ℕ,
      ((batches.foldl (fun acc p => (acc.1 ++ [p.2 * (p.1 : ℚ)], acc.2 + p.1)) acc).1.sum =
        acc.1.sum + (batches.map (fun p => p.2 * (p.1 : ℚ))).sum ∧
      (batches.foldl (fun acc p => (acc.1 ++ [p.2 * (p.1 : ℚ)], acc.2 + p.1)) acc).2 =
        acc.2 + (batches.map (fun p => p.1)).sum) by
    have := h ([], 0)
    simpa [validLoop] using this
  induction batches with
  | nil => intro acc; simp
  | cons p ps ih =>
    intro acc
    simp only [List.foldl_cons, List.map_cons, List.sum_cons]
    obtain ⟨ih1, ih2⟩ := ih (acc.1 ++ [p.2 * (p.1 : ℚ)], acc.2 + p.1)
    constructor
    · rw [ih1]; simp; ring
    · rw [ih2]; simp; ring

/-- Claim C6: the recorded validation loss is the size-weighted average —
each batch's mean loss times its batch size, summed over the batches and
divided by the total number of examples; on two batches of sizes 3 and 1
with mean losses 2 and 5 it equals `(3*2 + 1*5)/4 = 11/4 = 2.75`, not the
naive average `3.5`. -/
theorem valid_loss_size_weighted :
    (∀ batches : List (ℕ × ℚ),
      valid_loss batches =
        (batches.map (fun p => p.2 * (p.1 : ℚ))).sum / ((batches.map (fun p => p.1)).sum : ℚ)) ∧
    valid_loss [(3, 2), (1, 5)] = 11/4 ∧
    valid_loss [(3, 2), (1, 5)] ≠ 7/2 := by
  have hgen : ∀ batches : List (ℕ × ℚ),
      valid_loss batches =
        (batches.map (fun p => p.2 * (p.1 : ℚ))).sum / ((batches.map (fun p => p.1)).sum : ℚ) := by
    intro batches
    obtain ⟨h1, h2⟩ := validLoop_spec batches
    rw [valid_loss, h1, h2, Nat.cast_list_sum, List.map_map]
    rfl
  refine ⟨hgen, ?_, ?_⟩
  · rw [hgen]; norm_num
  · rw [hgen]; norm_num

/-- Batching helper for `DataLoader` with a `SequentialSampler`: split the
dataset into consecutive chunks of `b` examples (the final chunk may be
partial).  The fuel argument (initially the list length) only drives the
structural recursion; each round consumes at least one element when
`0 < b`. -/
def chunkListAux {α : Type} : ℕ → ℕ → List α → List (List α)
  | 0, _, _ => []
  | _ + 1, _, [] => []
  | fuel + 1, b, a :: t => ((a :: t).take b) :: chunkListAux fuel b ((a :: t).drop b)

/-- The ordered batches a sequential `DataLoader` with batch size `b` yields
over a dataset. -/
def chunkList {α : Type} (b : ℕ) (l : List α) : List (List α) :=
  chunkListAux l.length b l

lemma chunkListAux_flatten {α : Type} (b : ℕ) (hb : 0 < b) :
    ∀ (fuel : ℕ) (l : List α), l.length ≤ fuel → (chunkListAux fuel b l).flatten = l := by
  intro fuel
  induction fuel with
  | zero =>
    intro l hl
    rw [List.eq_nil_of_length_eq_zero (Nat.le_zero.mp hl)]
    rfl
  | succ n ih =>
    intro l hl
    match l with
    | [] => rfl
    | a :: t =>
      rw [chunkListAux, List.flatten_cons, ih ((a :: t).drop b) ?_, List.take_append_drop]
      have : ((a :: t).drop b).length = (a :: t).length - b := List.length_drop b (a :: t)
      omega

lemma chunkList_flatten {α : Type} (b : ℕ) (hb : 0 < b) (l : List α) :
    (chunkList b l).flatten = l :=
  chunkListAux_flatten b hb l.length l le_rfl

/-- The collection loop of `test` in `run_asc.py`: for each batch, in order,
compute the batch logits and extend `full_logits` and `full_label_ids`.
The model is per-example (`f` maps one example to its logits row, `lab` reads
its reference label id), as the encoder treats the examples of a batch
independently. -/
def evalLoop {α : Type} (f : α → List ℚ) (lab : α → ℤ) (batches : List (List α)) :
    List (List ℚ) × List ℤ :=
  batches.foldl (fun acc batch => (acc.1 ++ batch.map f, acc.2 ++ batch.map lab)) ([], [])

/-- The full prediction record collected by `test`: run the evaluation loop
over the sequential batches of the dataset. -/
def testCollect {α : Type} (f : α → List ℚ) (lab : α → ℤ) (b : ℕ) (examples : List α) :
    List (List ℚ) × List ℤ :=
  evalLoop f lab (chunkList b examples)

lemma evalLoop_flatten {α : Type} (f : α → List ℚ) (lab : α → ℤ) (batches : List (List α)) :
    evalLoop f lab batches = (batches.flatten.map f, batches.flatten.map lab) := by
  suffices h : ∀ acc : List (List ℚ) × List ℤ,
      batches.foldl (fun acc batch => (acc.1 ++ batch.map f, acc.2 ++ batch.map lab)) acc =
        (acc.1 ++ batches.flatten.map f, acc.2 ++ batches.flatten.map lab) by
    simpa [evalLoop] using h ([], [])
  induction batches with
  | nil => intro acc; simp
  | cons t ts ih =>
    intro acc
    simp only [List.foldl_cons, ih, List.flatten_cons, List.map_append, List.append_assoc]

/-- Claim C8: the evaluation routine preserves example order — the persisted
record lists one logits row and one reference label id per example, in the
order of the input split, so entry `i` of each corresponds to the `i`-th
example, for every `i < n`. -/
theorem test_preserves_order {α : Type} (f : α → List ℚ) (lab : α → ℤ) (b : ℕ)
    (hb : 0 < b) (examples : List α) :
    (testCollect f lab b examples).1 = examples.map f ∧
    (testCollect f lab b examples).2 = examples.map lab ∧
    ∀ i (hi : i < examples.length),
      (testCollect f lab b examples).1.getD i [] = f (examples.get ⟨i, hi⟩) ∧
      (testCollect f lab b examples).2.getD i 0 = lab (examples.get ⟨i, hi⟩) := by
  have h : testCollect f lab b examples = (examples.map f, examples.map lab) := by
    rw [testCollect, evalLoop_flatten, chunkList_flatten b hb]
  refine ⟨by rw [h], by rw [h], ?_⟩
  intro i hi
  rw [h]
  have hif : i < (examples.map f).length := by rw [List.length_map]; exact hi
  have hil : i < (examples.map lab).length := by rw [List.length_map]; exact hi
  rw [List.getD_eq_getElem _ _ hif, List.getD_eq_getElem _ _ hil]
  simp

/-- Witness for `test_preserves_order` with three examples and batch size
two. -/
theorem test_preserves_order_witness :
    0 < 2 ∧
    ((testCollect (fun n : ℤ => [(n : ℚ)]) (fun n : ℤ => n) 2 [10, 11, 12]).1 =
        [10, 11, 12].map (fun n : ℤ => [(n : ℚ)]) ∧
     (testCollect (fun n : ℤ => [(n : ℚ)]) (fun n : ℤ => n) 2 [10, 11, 12]).2 =
        [10, 11, 12].map (fun n : ℤ => n) ∧
     ∀ i (hi : i < ([10, 11, 12] : List ℤ).length),
       (testCollect (fun n : ℤ => [(n : ℚ)]) (fun n : ℤ => n) 2 [10, 11, 12]).1.getD i [] =
          [(((([10, 11, 12] : List ℤ).get ⟨i, hi⟩) : ℤ) : ℚ)] ∧
       (testCollect (fun n : ℤ => [(n : ℚ)]) (fun n : ℤ => n) 2 [10, 11, 12]).2.getD i 0 =
          ([10, 11, 12] : List ℤ).get ⟨i, hi⟩) :=
  ⟨by decide, test_preserves_order (fun n : ℤ => [(n : ℚ)]) (fun n : ℤ => n) 2 (by decide) [10, 11, 12]⟩

/-- The error raised by `os.path.join(None, ...)`: joining a `None` path
component is a `TypeError` in Python. -/
inductive PyErr where
  | typeErrorNonePath : PyErr
deriving DecidableEq, Repr

/-- Embedding of `os.path.join(new_dirs, filename)` where `new_dirs` is an
optional directory: `None` raises `TypeError`, a string joins with a path
separator. -/
def osPathJoin (dir : Option String) (filename : String) : Except PyErr String :=
  match dir with
  | none => Except.error PyErr.typeErrorNonePath
  | some d => Except.ok (d ++ "/" ++ filename)

/-- Embedding of the effectful skeleton of `test(args, new_dirs, ...)`:
after the (pure) data preparation, the routine joins `new_dirs` with
`"model.pt"` to load the checkpoint, runs the collection loop, then joins
`new_dirs` with `"predictions.json"` and writes the prediction record there.
The result pairs the outcome with the list of files written; an error aborts
before any later write. -/
def testRun {α : Type} (newDirs : Option String) (f : α → List ℚ) (lab : α → ℤ)
    (batchSize : ℕ) (examples : List α) :
    Except PyErr (List (List ℚ) × List ℤ) × List String :=
  match osPathJoin newDirs "model.pt" with
  | Except.error e => (Except.error e, [])
  | Except.ok _ckptPath =>
    let collected := testCollect f lab batchSize examples
    match osPathJoin newDirs "predictions.json" with
    | Except.error e => (Except.error e, [])
    | Except.ok outPath => (Except.ok collected, [outPath])

/-- Embedding of the `do_eval` dispatch in `main`: when `args.do_eval` is
set, `test(args)` is invoked with `new_dirs` left at its default `None`. -/
def mainEvalPhase {α : Type} (do_eval : Bool) (f : α → List ℚ) (lab : α → ℤ)
    (batchSize : ℕ) (examples : List α) :
    Option (Except PyErr (List (List ℚ) × List ℤ) × List String) :=
  if do_eval then some (testRun none f lab batchSize examples) else none

/-- Claim C10: with `do_eval` set, the standalone evaluation phase enters the
evaluation routine with no checkpoint location; joining `None` with
`"model.pt"` raises a `TypeError` before anything is written, so no
prediction file is produced and standalone evaluation can never succeed. -/
theorem standalone_eval_always_fails {α : Type} (f : α → List ℚ) (lab : α → ℤ)
    (batchSize : ℕ) (examples : List α) :
    mainEvalPhase true f lab batchSize examples =
      some (Except.error PyErr.typeErrorNonePath, []) ∧
    (testRun (none : Option String) f lab batchSize examples).2 = [] ∧
    ∀ res : List (List ℚ) × List ℤ,
      (testRun (none : Option String) f lab batchSize examples).1 ≠ Except.ok res :=
  ⟨rfl, rfl, fun _ h => Except.noConfusion h⟩

/-- A named model parameter as seen by `model.named_parameters()`: its
dotted name, its `requires_grad` flag and its (abstracted, scalar) value. -/
structure TrainParam where
  name : String
  requiresGrad : Bool
  value : ℚ
deriving DecidableEq, Repr

/-- Python's substring test `pat in s` on strings, as used by
`'pooler' not in n[0]` and `nd in n`. -/
def nameContains (pat s : String) : Bool :=
  (List.range (s.data.length + 1)).any
    (fun k => ((s.data.drop k).take pat.data.length) == pat.data)

/-- Embedding of the optimizer preparation of `train`:
`param_optimizer = [(k, v) for k, v in model.named_parameters() if v.requires_grad==True]`
followed by `param_optimizer = [n for n in param_optimizer if 'pooler' not in n[0]]`. -/
def param_optimizer (ps : List TrainParam) : List TrainParam :=
  (ps.filter (fun p => p.requiresGrad)).filter (fun p => !(nameContains "pooler" p.name))

/-- The `no_decay` name fragments of `train`. -/
def no_decay : List String := ["bias", "LayerNorm.bias", "LayerNorm.weight"]

/-- First optimizer parameter group: parameters whose name holds none of the
`no_decay` fragments (weight decay 0.01). -/
def decayGroup (ps : List TrainParam) : List TrainParam :=
  (param_optimizer ps).filter (fun p => !(no_decay.any (fun nd => nameContains nd p.name)))

/-- Second optimizer parameter group: parameters whose name holds a
`no_decay` fragment (weight decay 0.0). -/
def noDecayGroup (ps : List TrainParam) : List TrainParam :=
  (param_optimizer ps).filter (fun p => no_decay.any (fun nd => nameContains nd p.name))

/-- The names of the parameters the optimizer owns: the union of the two
parameter groups passed to `BertAdam`. -/
def optNames (ps : List TrainParam) : List String :=
  (decayGroup ps ++ noDecayGroup ps).map (fun p => p.name)

/-- One `optimizer.step()`: the optimizer mutates exactly the parameters in
its parameter groups (identified within the model by name), applying some
update `u`; every other parameter of the model is untouched. -/
def stepOnce (u : String → ℚ → ℚ) (groupNames : List String) (ps : List TrainParam) :
    List TrainParam :=
  ps.map (fun p =>
    if groupNames.contains p.name then { p with value := u p.name p.value } else p)

/-- The sequence of optimizer steps of the training loop: the parameter
groups are built once, before the loop, from the initial parameters; step
`k` applies the (arbitrary, step-dependent) update `u k` to the owned
parameters. -/
def runSteps (u : ℕ → String → ℚ → ℚ) (ps : List TrainParam) : ℕ → List TrainParam
  | 0 => ps
  | k + 1 => stepOnce (u k) (optNames ps) (runSteps u ps k)

lemma mem_param_optimizer_not_pooler (ps : List TrainParam) (p : TrainParam)
    (hp : p ∈ param_optimizer ps) : nameContains "pooler" p.name = false := by
  have h2 := (List.mem_filter.mp hp).2
  simpa using h2

lemma pooler_not_in_optNames (ps : List TrainParam) (n : String)
    (h : nameContains "pooler" n = true) : (optNames ps).contains n = false := by
  have hmem : n ∉ optNames ps := by
    intro hn
    rcases List.mem_map.mp hn with ⟨p, hp, hpn⟩
    have hpo : p ∈ param_optimizer ps := by
      rcases List.mem_append.mp hp with hpd | hpnd
      · exact (List.mem_filter.mp hpd).1
      · exact (List.mem_filter.mp hpnd).1
    have hfalse := mem_param_optimizer_not_pooler ps p hpo
    rw [hpn, h] at hfalse
    exact Bool.noConfusion hfalse
  simpa using hmem

lemma runSteps_length (u : ℕ → String → ℚ → ℚ) (ps : List TrainParam) (k : ℕ) :
    (runSteps u ps k).length = ps.length := by
  induction k with
  | zero => rfl
  | succ n ih => simp [runSteps, stepOnce, ih]

lemma runSteps_fixed_of_not_opt (u : ℕ → String → ℚ → ℚ) (ps : List TrainParam) (k i : ℕ)
    (hi : i < ps.length) (hp : (optNames ps).contains ((ps[i]).name) = false) :
    ∀ hk : i < (runSteps u ps k).length, (runSteps u ps k)[i] = ps[i] := by
  induction k with
  | zero => intro hk; rfl
  | succ n ih =>
    intro hk
    have hkn : i < (runSteps u ps n).length := by
      rw [runSteps_length]; exact hi
    have hstep : (runSteps u ps (n + 1))[i] =
        (if (optNames ps).contains ((runSteps u ps n)[i]).name then
          { (runSteps u ps n)[i] with
            value := u n ((runSteps u ps n)[i]).name ((runSteps u ps n)[i]).value }
        else (runSteps u ps n)[i]) := by
      simp [runSteps, stepOnce]
    rw [hstep, ih hkn, hp]
    simp

/-- Claim C9: every model parameter whose name holds `'pooler'` — including
the head's shared pooling operator `groie.pooler`, which every branch
applies — is dropped by the optimizer preparation, so it belongs to neither
parameter group handed to `BertAdam` and keeps its initial value after any
number of optimizer steps; conversely a parameter that some step changed
must belong to the optimizer's parameter groups. -/
theorem pooler_params_frozen (ps : List TrainParam) (u : ℕ → String → ℚ → ℚ)
    (k i : ℕ) (hi : i < ps.length)
    (hp : nameContains "pooler" ((ps[i]).name) = true) :
    (ps[i]) ∉ param_optimizer ps ∧
    (ps[i]) ∉ decayGroup ps ∧
    (ps[i]) ∉ noDecayGroup ps ∧
    (∀ hk : i < (runSteps u ps k).length, (runSteps u ps k)[i] = ps[i]) ∧
    (∀ j, ∀ hj : j < ps.length, ∀ hkj : j < (runSteps u ps k).length,
      (runSteps u ps k)[j] ≠ ps[j] → (optNames ps).contains ((ps[j]).name) = true) := by
  have hnotopt : ∀ p : TrainParam, nameContains "pooler" p.name = true →
      p ∉ param_optimizer ps := by
    intro p hpn hmem
    have := mem_param_optimizer_not_pooler ps p hmem
    rw [hpn] at this
    exact Bool.noConfusion this
  refine ⟨hnotopt _ hp, ?_, ?_, ?_, ?_⟩
  · intro hmem
    exact hnotopt _ hp (List.mem_filter.mp hmem).1
  · intro hmem
    exact hnotopt _ hp (List.mem_filter.mp hmem).1
  · exact runSteps_fixed_of_not_opt u ps k i hi
      (pooler_not_in_optNames ps ((ps[i]).name) hp)
  · intro j hj hkj hne
    cases hcont : (optNames ps).contains ((ps[j]).name) with
    | true => rfl
    | false => exact absurd (runSteps_fixed_of_not_opt u ps k j hj hcont hkj) hne

/-- Witness for `pooler_params_frozen`: a two-parameter model where the
second parameter is the head's shared pooler weight; after two incrementing
optimizer steps the pooler weight still holds its initial value. -/
theorem pooler_params_frozen_witness :
    1 < ([⟨"bert.encoder.layer.0.output.dense.weight", true, 5⟩,
          ⟨"groie.pooler.dense.weight", true, 7⟩] : List TrainParam).length ∧
    nameContains "pooler"
      ((([⟨"bert.encoder.layer.0.output.dense.weight", true, 5⟩,
          ⟨"groie.pooler.dense.weight", true, 7⟩] : List TrainParam)[1]).name) = true ∧
    ((([⟨"bert.encoder.layer.0.output.dense.weight", true, 5⟩,
        ⟨"groie.pooler.dense.weight", true, 7⟩] : List TrainParam)[1]) ∉
      param_optimizer [⟨"bert.encoder.layer.0.output.dense.weight", true, 5⟩,
        ⟨"groie.pooler.dense.weight", true, 7⟩] ∧
     (([⟨"bert.encoder.layer.0.output.dense.weight", true, 5⟩,
        ⟨"groie.pooler.dense.weight", true, 7⟩] : List TrainParam)[1]) ∉
      decayGroup [⟨"bert.encoder.layer.0.output.dense.weight", true, 5⟩,
        ⟨"groie.pooler.dense.weight", true, 7⟩] ∧
     (([⟨"bert.encoder.layer.0.output.dense.weight", true, 5⟩,
        ⟨"groie.pooler.dense.weight", true, 7⟩] : List TrainParam)[1]) ∉
      noDecayGroup [⟨"bert.encoder.layer.0.output.dense.weight", true, 5⟩,
        ⟨"groie.pooler.dense.weight", true, 7⟩] ∧
     (∀ hk : 1 < (runSteps (fun _ _ v => v + 1)
        [⟨"bert.encoder.layer.0.output.dense.weight", true, 5⟩,
         ⟨"groie.pooler.dense.weight", true, 7⟩] 2).length,
       (runSteps (fun _ _ v => v + 1)
        [⟨"bert.encoder.layer.0.output.dense.weight", true, 5⟩,
         ⟨"groie.pooler.dense.weight", true, 7⟩] 2)[1] =
       (([⟨"bert.encoder.layer.0.output.dense.weight", true, 5⟩,
          ⟨"groie.pooler.dense.weight", true, 7⟩] : List TrainParam)[1])) ∧
     (∀ j, ∀ hj : j < ([⟨"bert.encoder.layer.0.output.dense.weight", true, 5⟩,
          ⟨"groie.pooler.dense.weight", true, 7⟩] : List TrainParam).length,
      ∀ hkj : j < (runSteps (fun _ _ v => v + 1)
        [⟨"bert.encoder.layer.0.output.dense.weight", true, 5⟩,
         ⟨"groie.pooler.dense.weight", true, 7⟩] 2).length,
      (runSteps (fun _ _ v => v + 1)
        [⟨"bert.encoder.layer.0.output.dense.weight", true, 5⟩,
         ⟨"groie.pooler.dense.weight", true, 7⟩] 2)[j] ≠
        (([⟨"bert.encoder.layer.0.output.dense.weight", true, 5⟩,
           ⟨"groie.pooler.dense.weight", true, 7⟩] : List TrainParam)[j]) →
      (optNames [⟨"bert.encoder.layer.0.output.dense.weight", true, 5⟩,
        ⟨"groie.pooler.dense.weight", true, 7⟩]).contains
        ((([⟨"bert.encoder.layer.0.output.dense.weight", true, 5⟩,
            ⟨"groie.pooler.dense.weight", true, 7⟩] : List TrainParam)[j]).name) = true)) :=
  ⟨by decide, by decide,
   pooler_params_frozen
     [⟨"bert.encoder.layer.0.output.dense.weight", true, 5⟩,
      ⟨"groie.pooler.dense.weight", true, 7⟩]
     (fun _ _ v => v + 1) 2 1 (by decide) (by decide)⟩
